import Mathlib

/-!
Verification of the receive-side core of the Homa transport protocol
(`homa_incoming.c`), via a shallow embedding in Lean.  C integers are
modelled as `Int` (overflow is irrelevant at the scales involved),
kernel linked lists as Lean `List`s, and the external collaborators
(buffer pool, RPC table, packet emitter, cycle counter) as explicit
parameters.
-/

namespace HomaModule

/-- A hole in the received portion of a message: bytes in
`[start, end_)` have not yet been received (struct homa_gap).
The C field `end` is spelled `end_` because `end` is a Lean keyword. -/
structure homa_gap where
  start : Int
  end_ : Int
deriving Repr, DecidableEq

/-- State of a partially-received incoming message (struct
homa_message_in).  `packets` models the skb queue as the list of
(offset, segment_length) pairs of the queued packets; `birth` is the
`get_cycles()` timestamp (an unsigned 64-bit counter, hence `Nat`). -/
structure homa_message_in where
  length : Int
  recv_end : Int
  bytes_remaining : Int
  granted : Int
  priority : Int
  scheduled : Bool
  resend_all : Bool
  num_bpages : Int
  birth : Nat
  packets : List (Int × Int)
  gaps : List homa_gap
deriving Repr, DecidableEq

/-- State of an outgoing message (the fields of struct homa_message_out
read by the GRANT handler). -/
structure homa_message_out where
  length : Int
  granted : Int
  sched_priority : Int
  next_xmit_offset : Int
deriving Repr, DecidableEq

/-- RPC states (enum homa_rpc.state). -/
inductive homa_rpc_state where
  | RPC_OUTGOING
  | RPC_INCOMING
  | RPC_IN_SERVICE
  | RPC_DEAD
deriving Repr, DecidableEq

export homa_rpc_state (RPC_OUTGOING RPC_INCOMING RPC_IN_SERVICE RPC_DEAD)

/-- The slice of struct homa_rpc used by the grant engine and the
packet handlers.  `peer` abstracts the peer pointer (two RPCs have the
same peer iff the field is equal); `pkts_ready` and `has_interest`
model the RPC_PKTS_READY flag bit and the `interest` pointer. -/
structure homa_rpc where
  id : Nat
  peer : Nat
  state : homa_rpc_state
  error : Int
  silent_ticks : Int
  grants_in_progress : Int
  pkts_ready : Bool
  has_interest : Bool
  msgin : homa_message_in
  msgout : homa_message_out
deriving Repr, DecidableEq

/-- Wire header for a GRANT packet (struct grant_header), already in
host byte order. -/
structure grant_header where
  offset : Int
  priority : Int
  resend_all : Bool
deriving Repr, DecidableEq

/-- Constructor for homa_message_in (homa_message_in_init).  The call
to the external buffer allocator is modelled by the `pool_pages`
argument: the number of bpages `homa_pool_allocate` produced. -/
def homa_message_in_init (length unsched pool_pages : Int) : homa_message_in :=
  let granted := if unsched > length then length else unsched
  let m : homa_message_in :=
    { length := length
      recv_end := 0
      bytes_remaining := length
      granted := granted
      priority := 0
      scheduled := length > unsched
      resend_all := false
      num_bpages := pool_pages
      birth := 0
      packets := []
      gaps := [] }
  if m.num_bpages = 0 then { m with granted := 0 } else m

/-- The gap-walking loop of homa_add_packet: attempts to place the
segment `[start, end_)` in one of the existing gaps, in list order.
`none` means the loop fell through to the `discard` label (either the
segment overlaps a gap boundary, or no gap matched); `some gs` means
the segment was accepted and the gap list becomes `gs`.  Mirrors the
`list_for_each_entry_safe` loop line by line, including the freeing of
a fully-consumed gap and the split of a gap via homa_gap_new. -/
def homa_add_packet_gaps (start end_ : Int) : List homa_gap → Option (List homa_gap)
  | [] => none
  | gap :: rest =>
    if start ≤ gap.start then
      if end_ ≤ gap.start then
        match homa_add_packet_gaps start end_ rest with
        | none => none
        | some gs => some (gap :: gs)
      else if start < gap.start then
        none
      else if end_ > gap.end_ then
        none
      else if end_ ≥ gap.end_ then
        some rest
      else
        some ({ start := end_, end_ := gap.end_ } :: rest)
    else if end_ ≥ gap.end_ then
      if start ≥ gap.end_ then
        match homa_add_packet_gaps start end_ rest with
        | none => none
        | some gs => some (gap :: gs)
      else if end_ > gap.end_ then
        none
      else
        some ({ start := gap.start, end_ := start } :: rest)
    else
      some ({ start := gap.start, end_ := start } ::
            { start := end_, end_ := gap.end_ } :: rest)

/-- Integrate one DATA segment `(start, length)` into a message
(homa_add_packet).  The `keep` label enqueues the packet and debits
`bytes_remaining`; the `discard` label frees the packet, leaving the
message untouched.  A gap created past `recv_end` is appended at the
tail of the gap list, as `homa_gap_new(&rpc->msgin.gaps, ...)` does. -/
def homa_add_packet (m : homa_message_in) (start length : Int) : homa_message_in :=
  let end_ := start + length
  let keep := fun (m' : homa_message_in) =>
    { m' with
      packets := m'.packets ++ [(start, length)]
      bytes_remaining := m'.bytes_remaining - length }
  if start + length > m.length then
    m
  else if start = m.recv_end then
    keep { m with recv_end := m.recv_end + length }
  else if start > m.recv_end then
    keep { m with
           gaps := m.gaps ++ [{ start := m.recv_end, end_ := start }]
           recv_end := end_ }
  else
    match homa_add_packet_gaps start end_ m.gaps with
    | none => m
    | some gs => keep { m with gaps := gs }

/-- Well-formedness of a gap list: every gap starts at or after `lo`,
is nonempty, ends at or before `stop`, and successive gaps are
disjoint and ordered (each gap's lower bound is the previous gap's
end).  Instantiated with `lo = 0` and `stop = recv_end` this is the
gap-list invariant of the reassembler. -/
def gapsWF (lo stop : Int) : List homa_gap → Prop
  | [] => True
  | gap :: rest =>
      lo ≤ gap.start ∧ gap.start < gap.end_ ∧ gap.end_ ≤ stop ∧
      gapsWF gap.end_ stop rest

/-- Decision procedure for `gapsWF`, so that concrete instances can be
settled by `decide`. -/
def gapsWF_dec (lo stop : Int) : (l : List homa_gap) → Decidable (gapsWF lo stop l)
  | [] => .isTrue trivial
  | gap :: rest =>
      have : Decidable (gapsWF gap.end_ stop rest) := gapsWF_dec gap.end_ stop rest
      inferInstanceAs (Decidable (_ ∧ _ ∧ _ ∧ _))

instance (lo stop : Int) (l : List homa_gap) : Decidable (gapsWF lo stop l) :=
  gapsWF_dec lo stop l

/-- The grant-engine slice of struct homa: the grantable list (held in
SRPT order), the incoming-byte accounting, and the sysctl-derived
configuration values. -/
structure homa where
  grantable_rpcs : List homa_rpc
  num_grantable_rpcs : Int
  total_incoming : Int
  max_incoming : Int
  window : Int
  max_overcommit : Nat
  max_rpcs_per_peer : Nat
  max_sched_prio : Int
  grant_nonfifo : Int
  grant_nonfifo_left : Int
  grant_fifo_fraction : Int
  fifo_grant_increment : Int
  unsched_bytes : Int
deriving Repr, DecidableEq

/-- Replace the grantable-list entry with the same id (the in-place
field updates the C code performs through the RPC pointer). -/
def homa_update_grantable (h : homa) (rpc : homa_rpc) : homa :=
  { h with grantable_rpcs :=
      h.grantable_rpcs.map (fun x => if x.id = rpc.id then rpc else x) }

/-- homa_remove_grantable_locked: unlink the RPC from the grantable
list and decrement num_grantable_rpcs. -/
def homa_remove_grantable_locked (h : homa) (rpc : homa_rpc) : homa :=
  { h with
    grantable_rpcs := h.grantable_rpcs.filter (fun x => x.id ≠ rpc.id)
    num_grantable_rpcs := h.num_grantable_rpcs - 1 }

/-- The insertion loop of homa_check_grantable: walk the list and link
the new RPC just before the first entry with strictly more
bytes_remaining; append at the tail when no such entry exists. -/
def homa_grantable_insert (rpc : homa_rpc) : List homa_rpc → List homa_rpc
  | [] => [rpc]
  | candidate :: rest =>
      if candidate.msgin.bytes_remaining > rpc.msgin.bytes_remaining then
        rpc :: candidate :: rest
      else
        candidate :: homa_grantable_insert rpc rest

/-- The adjustment loop of homa_check_grantable: repeatedly swap the
RPC with its predecessor while the predecessor has strictly more
bytes_remaining, or the same bytes_remaining and a strictly younger
birth.  `revpre` is the list of predecessors, nearest first. -/
def homa_grantable_bubble (rpc : homa_rpc) : List homa_rpc → List homa_rpc → List homa_rpc
  | [], post => rpc :: post
  | candidate :: revpre, post =>
      if candidate.msgin.bytes_remaining < rpc.msgin.bytes_remaining then
        ((candidate :: revpre).reverse) ++ rpc :: post
      else if candidate.msgin.bytes_remaining = rpc.msgin.bytes_remaining ∧
              candidate.msgin.birth ≤ rpc.msgin.birth then
        ((candidate :: revpre).reverse) ++ rpc :: post
      else
        homa_grantable_bubble rpc revpre (candidate :: post)

/-- Split a list at the entry with the given id. -/
def homa_list_split (id : Nat) : List homa_rpc → Option (List homa_rpc × homa_rpc × List homa_rpc)
  | [] => none
  | x :: rest =>
      if x.id = id then
        some ([], x, rest)
      else
        (homa_list_split id rest).map (fun r => (x :: r.1, r.2.1, r.2.2))

/-- homa_check_grantable: ensure an RPC that still needs grants is on
the grantable list, in SRPT position.  `now` models `get_cycles()`
(used to stamp `birth` when the RPC is first inserted); the
RPC_DEAD re-check under the lock is the `state` guard. -/
def homa_check_grantable (h : homa) (rpc : homa_rpc) (now : Nat) : homa :=
  if rpc.msgin.granted ≥ rpc.msgin.length then h
  else if rpc.state = RPC_DEAD ∨ rpc.msgin.granted ≥ rpc.msgin.length then h
  else
    match homa_list_split rpc.id h.grantable_rpcs with
    | none =>
        let rpc := { rpc with msgin := { rpc.msgin with birth := now } }
        { h with
          num_grantable_rpcs := h.num_grantable_rpcs + 1
          grantable_rpcs := homa_grantable_insert rpc h.grantable_rpcs }
    | some (pre, rpc', post) =>
        { h with grantable_rpcs := homa_grantable_bubble rpc' pre.reverse post }

/-- Find the count recorded for a peer in the bookkeeping table of
homa_choose_rpcs_to_grant. -/
def homa_peer_count (peers : List (Nat × Nat)) (p : Nat) : Option Nat :=
  (peers.find? (fun q => q.1 = p)).map (fun q => q.2)

/-- Increment the count recorded for a peer (the peer must be
present). -/
def homa_peer_bump (peers : List (Nat × Nat)) (p : Nat) : List (Nat × Nat) :=
  peers.map (fun q => if q.1 = p then (q.1, q.2 + 1) else q)

/-- The scan loop of homa_choose_rpcs_to_grant: walk the grantable
list in order, counting how many RPCs of each distinct peer have been
seen; skip an RPC once its peer's count exceeds max_rpcs_per_peer,
and stop as soon as max_rpcs RPCs have been selected. -/
def homa_choose_rpcs_to_grant_go (maxPer : Nat) (max_rpcs : Nat) :
    List homa_rpc → List (Nat × Nat) → Nat → List homa_rpc
  | [], _, _ => []
  | rpc :: rest, peers, num_rpcs =>
      match homa_peer_count peers rpc.peer with
      | some c =>
          if c + 1 > maxPer then
            homa_choose_rpcs_to_grant_go maxPer max_rpcs rest
              (homa_peer_bump peers rpc.peer) num_rpcs
          else if num_rpcs + 1 ≥ max_rpcs then
            [rpc]
          else
            rpc :: homa_choose_rpcs_to_grant_go maxPer max_rpcs rest
              (homa_peer_bump peers rpc.peer) (num_rpcs + 1)
      | none =>
          if num_rpcs + 1 ≥ max_rpcs then
            [rpc]
          else
            rpc :: homa_choose_rpcs_to_grant_go maxPer max_rpcs rest
              ((rpc.peer, 1) :: peers) (num_rpcs + 1)

/-- homa_choose_rpcs_to_grant: select up to @max_rpcs RPCs from the
grantable list, at most max_rpcs_per_peer of them per peer. -/
def homa_choose_rpcs_to_grant (h : homa) (max_rpcs : Nat) : List homa_rpc :=
  homa_choose_rpcs_to_grant_go h.max_rpcs_per_peer max_rpcs h.grantable_rpcs [] 0

/-- The per-RPC window computation of homa_create_grants:
`min(received + window, length)`, the offset the next grant would
extend to before clipping against `available`. -/
def homa_grant_window_end (window : Int) (rpc : homa_rpc) : Int :=
  let received := rpc.msgin.length - rpc.msgin.bytes_remaining
  let new_grant := received + window
  if new_grant > rpc.msgin.length then rpc.msgin.length else new_grant

/-- The priority computation of homa_create_grants: rank r maps to
max_sched_prio - r, shifted down by the unused levels
(max_sched_prio + 1 - num_rpcs) when that is nonnegative, floored
at 0. -/
def homa_grant_priority (max_sched_prio : Int) (num_rpcs rank : Nat) : Int :=
  let priority := max_sched_prio - rank
  let extra_levels := max_sched_prio + 1 - (num_rpcs : Int)
  let priority := if extra_levels ≥ 0 then priority - extra_levels else priority
  if priority < 0 then 0 else priority

/-- The updated RPC written back by homa_create_grants when a grant of
extent `new_grant` is created. -/
def homa_grant_update_rpc (rpc : homa_rpc) (new_grant : Int) : homa_rpc :=
  { rpc with
    silent_ticks := 0
    grants_in_progress := rpc.grants_in_progress + 1
    msgin := { rpc.msgin with granted := new_grant, resend_all := false } }

/-- The loop of homa_create_grants over the selected RPCs: `rank` is
the index in the selected array, `available` the remaining grantable
bytes.  Returns the (rpc, grant) pairs actually created, the total
bytes granted, and the updated homa state (granted fields written
through the grantable list, fully-granted RPCs removed). -/
def homa_create_grants_go (window max_sched_prio : Int) (num_rpcs : Nat) :
    List homa_rpc → Nat → Int → homa → (List (homa_rpc × grant_header) × Int × homa)
  | [], _, _, h => ([], 0, h)
  | rpc :: rest, rank, available, h =>
      if homa_grant_window_end window rpc - rpc.msgin.granted ≤ 0 then
        homa_create_grants_go window max_sched_prio num_rpcs rest (rank + 1) available h
      else if available ≤ 0 then
        ([], 0, h)
      else
        let increment :=
          if homa_grant_window_end window rpc - rpc.msgin.granted > available then
            available
          else
            homa_grant_window_end window rpc - rpc.msgin.granted
        let new_grant :=
          if homa_grant_window_end window rpc - rpc.msgin.granted > available then
            rpc.msgin.granted + increment
          else
            homa_grant_window_end window rpc
        let rpc' := homa_grant_update_rpc rpc new_grant
        let grant : grant_header :=
          { offset := new_grant
            priority := homa_grant_priority max_sched_prio num_rpcs rank
            resend_all := rpc.msgin.resend_all }
        let h' := homa_update_grantable h rpc'
        let h' := if new_grant = rpc.msgin.length then
                    homa_remove_grantable_locked h' rpc'
                  else h'
        let res :=
          homa_create_grants_go window max_sched_prio num_rpcs rest (rank + 1)
            (available - increment) h'
        ((rpc', grant) :: res.1, res.2.1 + increment, res.2.2)

/-- homa_create_grants: compute grants for the selected RPCs without
sending them; debit grant_nonfifo_left and credit total_incoming by
the bytes granted. -/
def homa_create_grants (h : homa) (rpcs : List homa_rpc) (available : Int) :
    List (homa_rpc × grant_header) × homa :=
  let num_rpcs := rpcs.length
  let window := if h.window = 0 then Int.tdiv h.max_incoming ((num_rpcs : Int) + 1) else h.window
  let res := homa_create_grants_go window h.max_sched_prio num_rpcs rpcs 0 available h
  (res.1,
   { res.2.2 with
     grant_nonfifo_left := (res.2.2).grant_nonfifo_left - res.2.1
     total_incoming := (res.2.2).total_incoming + res.2.1 })

/-- The scan loop of homa_choose_fifo_grant: find the oldest grantable
message whose outstanding (granted-but-not-received) bytes do not
exceed unsched_bytes.  The initial `oldest_birth` is `~0` (the largest
unsigned 64-bit value). -/
def homa_choose_fifo_grant_scan (unsched_bytes : Int) :
    List homa_rpc → Option homa_rpc → Nat → Option homa_rpc
  | [], oldest, _ => oldest
  | rpc :: rest, oldest, oldest_birth =>
      if rpc.msgin.birth ≥ oldest_birth then
        homa_choose_fifo_grant_scan unsched_bytes rest oldest oldest_birth
      else
        let received := rpc.msgin.length - rpc.msgin.bytes_remaining
        let on_the_way := rpc.msgin.granted - received
        if on_the_way > unsched_bytes then
          homa_choose_fifo_grant_scan unsched_bytes rest oldest oldest_birth
        else
          homa_choose_fifo_grant_scan unsched_bytes rest (some rpc) rpc.msgin.birth

/-- homa_choose_fifo_grant: advance the oldest eligible RPC's granted
offset by fifo_grant_increment (clipped at the message length,
removing the RPC from the grantable list if it becomes fully granted),
credit total_incoming by the bytes actually granted, and return the
RPC a FIFO grant should be sent to (none when the new grant offset is
already covered by received bytes). -/
def homa_choose_fifo_grant (h : homa) : Option homa_rpc × homa :=
  match homa_choose_fifo_grant_scan h.unsched_bytes h.grantable_rpcs none (2 ^ 64 - 1) with
  | none => (none, h)
  | some oldest =>
      let granted := h.fifo_grant_increment
      let overshoot := oldest.msgin.granted + granted - oldest.msgin.length
      let hit_end := oldest.msgin.granted + granted ≥ oldest.msgin.length
      let granted := if hit_end then granted - overshoot else granted
      let oldest' := { oldest with
                       silent_ticks := 0
                       msgin := { oldest.msgin with
                                  granted := if hit_end then oldest.msgin.length
                                             else oldest.msgin.granted + h.fifo_grant_increment } }
      let h := homa_update_grantable h oldest'
      let h := if hit_end then homa_remove_grantable_locked h oldest' else h
      let h := { h with total_incoming := h.total_incoming + granted }
      (if oldest'.msgin.granted < oldest'.msgin.length - oldest'.msgin.bytes_remaining
       then none
       else some oldest', h)

/-- The FIFO stage of homa_send_grants: when the non-FIFO budget is
exhausted, replenish it by grant_nonfifo and (if FIFO grants are
enabled) pick a pity-grant recipient via homa_choose_fifo_grant. -/
def homa_send_grants_fifo (h1 : homa) : Option homa_rpc × homa :=
  if h1.grant_nonfifo_left ≤ 0 then
    let h2 := { h1 with grant_nonfifo_left := h1.grant_nonfifo_left + h1.grant_nonfifo }
    if h2.grant_fifo_fraction ≠ 0 then homa_choose_fifo_grant h2 else (none, h2)
  else (none, h1)

/-- homa_send_grants: one full grant round.  Returns the updated homa
state, the GRANT packets emitted for the selected RPCs, and the FIFO
pity grant (if any) issued in the same call. -/
def homa_send_grants (h : homa) :
    homa × List (homa_rpc × grant_header) × Option (homa_rpc × grant_header) :=
  let available := h.max_incoming - h.total_incoming
  if h.grantable_rpcs.isEmpty then
    (h, [], none)
  else if available ≤ 0 then
    (h, [], none)
  else
    let rpcs := homa_choose_rpcs_to_grant h h.max_overcommit
    let created := homa_create_grants h rpcs available
    let pairs := created.1
    let fifo := homa_send_grants_fifo created.2
    match fifo.1 with
    | none => (fifo.2, pairs, none)
    | some fr =>
        (fifo.2, pairs,
         some (fr, { offset := fr.msgin.granted
                     priority := (fifo.2).max_sched_prio
                     resend_all := false }))

/-- Packet types of the Homa wire protocol (enum homa_packet_type). -/
inductive packet_type where
  | DATA
  | GRANT
  | RESEND
  | UNKNOWN
  | BUSY
  | CUTOFFS
  | NEED_ACK
  | ACK
deriving Repr, DecidableEq

export packet_type (DATA GRANT RESEND UNKNOWN BUSY CUTOFFS NEED_ACK ACK)

/-- Modelled from the spec: homa_is_client lives in homa_impl.h, which
is not part of this repository slice.  Per the spec's data model, the
low bit of the 64-bit id distinguishes client-originated RPCs; ids
with low bit clear are client RPCs. -/
def homa_is_client (id : Nat) : Bool :=
  id % 2 = 0

/-- What homa_pkt_dispatch decides to do with a packet after the RPC
lookup phase. -/
inductive dispatch_action where
  /-- The packet is freed without being handed to a packet handler;
  the flag records whether the unknown_rpcs metric is incremented. -/
  | discard (metered : Bool)
  /-- The packet is passed to the handler for its type, together with
  the RPC found or created for it (none for the handlers that accept a
  NULL RPC). -/
  | handle (rpc : Option homa_rpc)
deriving Repr, DecidableEq

export dispatch_action (discard handle)

/-- The RPC-lookup phase of homa_pkt_dispatch (the code between the
lcache probe and the dispatch switch).  The external RPC table is
modelled by the three oracle arguments: `new_server` is the result of
homa_rpc_new_server (none when creation fails), `find_server` and
`find_client` the results of homa_find_server_rpc /
homa_find_client_rpc; `cached` is the lcache hit, if any. -/
def homa_pkt_dispatch_route (type : packet_type) (id : Nat)
    (cached find_server find_client new_server : Option homa_rpc) : dispatch_action :=
  let rpc :=
    match cached with
    | some r => some r
    | none =>
        if ¬ homa_is_client id then
          if type = DATA then new_server
          else find_server
        else
          find_client
  match rpc with
  | none =>
      if type ≠ CUTOFFS ∧ type ≠ NEED_ACK ∧ type ≠ ACK ∧ type ≠ RESEND then
        discard (type ≠ GRANT ∨ homa_is_client id)
      else
        handle none
  | some r => handle (some r)

/-- Handler for incoming GRANT packets (homa_grant_pkt).  The packet
header fields are passed in host byte order; the retransmission the
`resend_all` flag triggers and the subsequent homa_xmit_data call are
external sends with no effect on the modelled state. -/
def homa_grant_pkt (rpc : homa_rpc) (offset priority : Int) : homa_rpc :=
  if rpc.state = RPC_OUTGOING then
    let new_offset := offset
    let granted :=
      if new_offset > rpc.msgout.granted then
        if new_offset > rpc.msgout.length then rpc.msgout.length else new_offset
      else
        rpc.msgout.granted
    { rpc with msgout := { rpc.msgout with granted := granted, sched_priority := priority } }
  else
    rpc

/-- The wait-loop slice of struct homa_sock: the shutdown flag and the
two ready-RPC queues.  The interest lists are not needed by the
modelled executions (no concurrent handoff occurs). -/
structure homa_sock where
  shutdown : Bool
  ready_requests : List homa_rpc
  ready_responses : List homa_rpc
deriving Repr, DecidableEq

/-- Linux errno values used by the receive path. -/
def EINVAL : Int := 22
def EAGAIN : Int := 11
def ESHUTDOWN : Int := 108
def EINTR : Int := 4

/-- homa_register_interests.  `id` and the lookup result `client_rpc`
(the homa_find_client_rpc oracle) model the targeted-RPC path; the
request/response flags come from the recvmsg flags word.  Returns
either a negative errno, or the RPC claimed immediately (`some`), or
`none` when the interest was linked and the caller must wait. -/
def homa_register_interests (hsk : homa_sock) (freq fresp : Bool) (id : Nat)
    (client_rpc : Option homa_rpc) : Except Int (Option homa_rpc) :=
  if id ≠ 0 ∧ homa_is_client id = false then
    .error (-EINVAL)
  else if id ≠ 0 ∧ client_rpc = none then
    .error (-EINVAL)
  else if id ≠ 0 ∧ (∃ r, client_rpc = some r ∧ r.has_interest) then
    .error (-EINVAL)
  else if hsk.shutdown then
    .error (-ESHUTDOWN)
  else if id ≠ 0 ∧ (∃ r, client_rpc = some r ∧ (r.pkts_ready ∨ r.error ≠ 0)) then
    .ok client_rpc
  else if fresp ∧ ¬ hsk.ready_responses.isEmpty then
    .ok hsk.ready_responses.head?
  else if freq ∧ ¬ hsk.ready_requests.isEmpty then
    .ok hsk.ready_requests.head?
  else
    .ok none

/-- Outcome of one pass of the homa_wait_for_message outer loop. -/
inductive wait_result where
  /-- The loop returned this RPC to the application. -/
  | found (rpc : homa_rpc)
  /-- The loop returned a negative errno. -/
  | failed (errno : Int)
  /-- The pass ended with the thread asleep or looping: with no
  concurrent handoff and no signal, every later pass repeats this
  one. -/
  | parked
deriving Repr, DecidableEq

/-- homa_copy_to_user: drain the packet queue of an RPC into user
buffers.  The copy either succeeds (all queued packets consumed) or
surfaces a negative errno; `copy_errno` models the outcome of the
external user-memory copies and buffer-pool calls. -/
def homa_copy_to_user (rpc : homa_rpc) (copy_errno : Int) : homa_rpc × Int :=
  if copy_errno ≠ 0 then
    (rpc, copy_errno)
  else
    ({ rpc with msgin := { rpc.msgin with packets := [] } }, 0)

/-- One pass of homa_wait_for_message under the modelled environment:
no concurrent packet arrival ever stores into `interest.ready_rpc`
(the "no matching RPC becomes ready" scenario), `signal` tells whether
a signal is pending at the post-sleep check, and `copy_errno` is the
outcome of homa_copy_to_user's external copies. -/
def homa_wait_for_message (hsk : homa_sock) (freq fresp nonblocking : Bool)
    (id : Nat) (client_rpc : Option homa_rpc) (signal : Bool)
    (copy_errno : Int) : wait_result :=
  match homa_register_interests hsk freq fresp id client_rpc with
  | .error e => .failed e
  | .ok (some rpc) =>
      -- found_rpc with a handed-off RPC
      if rpc.state = RPC_DEAD then
        .parked
      else
        let (rpc, err) := if rpc.error = 0 then homa_copy_to_user rpc copy_errno
                          else (rpc, rpc.error)
        let rpc := { rpc with error := err }
        if rpc.error ≠ 0 then
          .found rpc
        else if rpc.msgin.bytes_remaining = 0 ∧ rpc.msgin.packets.isEmpty then
          .found rpc
        else if signal then
          .failed (-EINTR)
        else
          .parked
  | .ok none =>
      -- no ready RPC: reap, then check NONBLOCKING, then poll and sleep
      if nonblocking then
        .failed (-EAGAIN)
      else if signal then
        .failed (-EINTR)
      else
        .parked

/-- Build a homa_message_in in mid-reception state (used by the
concrete scenarios below). -/
def mk_msgin (len rem gr : Int) (birth : Nat) : homa_message_in :=
  { length := len, recv_end := len - rem, bytes_remaining := rem, granted := gr,
    priority := 0, scheduled := true, resend_all := false, num_bpages := 1,
    birth := birth, packets := [], gaps := [] }

/-- Build an incoming RPC for the grant-engine scenarios. -/
def mk_rpc (id peer : Nat) (len rem gr : Int) (birth : Nat) : homa_rpc :=
  { id := id, peer := peer, state := RPC_INCOMING, error := 0, silent_ticks := 0,
    grants_in_progress := 0, pkts_ready := false, has_interest := false,
    msgin := mk_msgin len rem gr birth,
    msgout := { length := 0, granted := 0, sched_priority := 0, next_xmit_offset := 0 } }

/-- Baseline configuration for the grant-engine scenarios: large
incoming budget, fixed window, FIFO grants disabled. -/
def base_homa : homa :=
  { grantable_rpcs := [], num_grantable_rpcs := 0, total_incoming := 0,
    max_incoming := 1000000, window := 5000, max_overcommit := 10,
    max_rpcs_per_peer := 10, max_sched_prio := 7, grant_nonfifo := 100000,
    grant_nonfifo_left := 100000, grant_fifo_fraction := 0,
    fifo_grant_increment := 10000, unsched_bytes := 10000 }

/-- Scenario RPC A: 10,000 bytes remaining (scheduled, nothing
granted yet). -/
def c1_rpc_A : homa_rpc := mk_rpc 1 1 10000 10000 0 0
/-- Scenario RPC B: 5,000 bytes remaining. -/
def c1_rpc_B : homa_rpc := mk_rpc 2 2 5000 5000 0 0
/-- Scenario RPC C: 7,500 bytes remaining. -/
def c1_rpc_C : homa_rpc := mk_rpc 3 3 7500 7500 0 0

/-- Insert a sequence of RPCs into the grantable list via
homa_check_grantable, stamping each with the given cycle count. -/
def c1_fill (l : List (homa_rpc × Nat)) : homa :=
  l.foldl (fun h p => homa_check_grantable h p.1 p.2) base_homa

/-- The grant table holding exactly A, B and C. -/
def c1_table : homa := c1_fill [(c1_rpc_A, 10), (c1_rpc_B, 20), (c1_rpc_C, 30)]

/-- One grant round over `c1_table`: homa_choose_rpcs_to_grant
followed by homa_create_grants, as homa_send_grants performs it. -/
def c1_round : List (homa_rpc × grant_header) :=
  (homa_create_grants c1_table
    (homa_choose_rpcs_to_grant c1_table c1_table.max_overcommit)
    (c1_table.max_incoming - c1_table.total_incoming)).1

/-- A grant table one byte below its incoming budget, with FIFO
grants enabled and an exhausted non-FIFO budget: the next
homa_send_grants call issues a pity grant. -/
def c2_table : homa :=
  { grantable_rpcs := [mk_rpc 1 1 1000 1000 0 0], num_grantable_rpcs := 1,
    total_incoming := 99, max_incoming := 100, window := 50, max_overcommit := 10,
    max_rpcs_per_peer := 1, max_sched_prio := 7, grant_nonfifo := 1000,
    grant_nonfifo_left := 1, grant_fifo_fraction := 100,
    fifo_grant_increment := 10000, unsched_bytes := 10000 }

/-- Per-peer-cap scenario: A, B, C on peer 1 and D on peer 2, in list
order, with max_rpcs_per_peer = 2. -/
def c6_table : homa :=
  { base_homa with
    grantable_rpcs := [mk_rpc 1 1 1000 1000 0 1, mk_rpc 2 1 2000 2000 0 2,
                       mk_rpc 3 1 3000 3000 0 3, mk_rpc 4 2 4000 4000 0 4]
    num_grantable_rpcs := 4
    max_rpcs_per_peer := 2 }

/-- A mid-reception message used by the reassembly witnesses: 100
bytes, 30 received or skipped, one gap [5, 20). -/
def mk_c3_msgin : homa_message_in :=
  { length := 100, recv_end := 30, bytes_remaining := 85, granted := 100,
    priority := 0, scheduled := false, resend_all := false, num_bpages := 1,
    birth := 0, packets := [(20, 10)], gaps := [{ start := 5, end_ := 20 }] }

-- ===== Theorems =====

theorem gapsWF_mono_lo {lo lo' stop : Int} {l : List homa_gap}
    (h : gapsWF lo stop l) (hle : lo' ≤ lo) : gapsWF lo' stop l := by
  cases l with
  | nil => trivial
  | cons g rest =>
      obtain ⟨h1, h2, h3, h4⟩ := h
      exact ⟨le_trans hle h1, h2, h3, h4⟩

theorem gapsWF_mono_stop {lo stop stop' : Int} {l : List homa_gap}
    (h : gapsWF lo stop l) (hle : stop ≤ stop') : gapsWF lo stop' l := by
  induction l generalizing lo with
  | nil => trivial
  | cons g rest ih =>
      obtain ⟨h1, h2, h3, h4⟩ := h
      exact ⟨h1, h2, le_trans h3 hle, ih h4⟩

theorem gapsWF_starts {lo stop : Int} {l : List homa_gap}
    (h : gapsWF lo stop l) : ∀ g ∈ l, lo ≤ g.start := by
  induction l generalizing lo with
  | nil => intro g hg; cases hg
  | cons g rest ih =>
      obtain ⟨h1, h2, h3, h4⟩ := h
      intro g' hg'
      rcases List.mem_cons.mp hg' with hg' | hg'
      · exact hg' ▸ h1
      · exact le_trans (le_of_lt (lt_of_le_of_lt h1 h2)) (ih h4 g' hg')

theorem gapsWF_bounds {lo stop : Int} {l : List homa_gap}
    (h : gapsWF lo stop l) : ∀ g ∈ l, g.start < g.end_ ∧ g.end_ ≤ stop := by
  induction l generalizing lo with
  | nil => intro g hg; cases hg
  | cons g rest ih =>
      obtain ⟨_, h2, h3, h4⟩ := h
      intro g' hg'
      rcases List.mem_cons.mp hg' with hg' | hg'
      · exact hg' ▸ ⟨h2, h3⟩
      · exact ih h4 g' hg'

theorem gapsWF_pairwise {lo stop : Int} {l : List homa_gap}
    (h : gapsWF lo stop l) : l.Pairwise (fun a b => a.end_ ≤ b.start) := by
  induction l generalizing lo with
  | nil => exact List.Pairwise.nil
  | cons g rest ih =>
      obtain ⟨_, _, _, h4⟩ := h
      exact List.Pairwise.cons (gapsWF_starts h4) (ih h4)

/-- Appending a fresh gap `[s, e)` at the tail of a well-formed list
(the `start > recv_end` branch of homa_add_packet) keeps it
well-formed at the advanced bound. -/
theorem gapsWF_append {lo stop stop' s e : Int} {l : List homa_gap}
    (h : gapsWF lo stop l) (hlo : lo ≤ stop) (hs : stop ≤ s) (hse : s < e)
    (he : e ≤ stop') (hstop : stop ≤ stop') :
    gapsWF lo stop' (l ++ [{ start := s, end_ := e }]) := by
  induction l generalizing lo with
  | nil => exact ⟨le_trans hlo hs, hse, he, trivial⟩
  | cons g rest ih =>
      obtain ⟨h1, h2, h3, h4⟩ := h
      exact ⟨h1, h2, le_trans h3 hstop, ih h4 h3⟩

/-- The gap walk preserves well-formedness of the gap list whenever it
accepts a packet. -/
theorem homa_add_packet_gaps_WF {lo stop s e : Int} {l gs : List homa_gap}
    (h : gapsWF lo stop l) (hse : s ≤ e)
    (hsome : homa_add_packet_gaps s e l = some gs) :
    gapsWF lo stop gs := by
  induction l generalizing lo gs with
  | nil => simp [homa_add_packet_gaps] at hsome
  | cons g rest ih =>
      obtain ⟨h1, h2, h3, h4⟩ := h
      simp only [homa_add_packet_gaps] at hsome
      split_ifs at hsome with c1 c2 c3 c4 c5 c6 c7 c8
      · -- s ≤ g.start, e ≤ g.start: packet entirely before this gap
        cases hrec : homa_add_packet_gaps s e rest with
        | none => rw [hrec] at hsome; cases hsome
        | some gs' =>
            rw [hrec] at hsome
            cases hsome
            exact ⟨h1, h2, h3, ih h4 hrec⟩
      · -- s = g.start, e = g.end_: gap fully consumed, freed
        cases hsome
        exact gapsWF_mono_lo h4 (le_trans h1 h2.le)
      · -- s = g.start, e < g.end_: trim gap start
        cases hsome
        show lo ≤ e ∧ e < g.end_ ∧ g.end_ ≤ stop ∧ gapsWF g.end_ stop rest
        exact ⟨by omega, by omega, h3, h4⟩
      · -- s ≥ g.end_: packet entirely after this gap
        cases hrec : homa_add_packet_gaps s e rest with
        | none => rw [hrec] at hsome; cases hsome
        | some gs' =>
            rw [hrec] at hsome
            cases hsome
            exact ⟨h1, h2, h3, ih h4 hrec⟩
      · -- e = g.end_: trim gap end
        cases hsome
        show lo ≤ g.start ∧ g.start < s ∧ s ≤ stop ∧ gapsWF s stop rest
        exact ⟨h1, by omega, by omega, gapsWF_mono_lo h4 (by omega)⟩
      · -- g.start < s, e < g.end_: split the gap in two
        cases hsome
        show lo ≤ g.start ∧ g.start < s ∧ s ≤ stop ∧
          (s ≤ e ∧ e < g.end_ ∧ g.end_ ≤ stop ∧ gapsWF g.end_ stop rest)
        exact ⟨h1, by omega, by omega, hse, by omega, h3, h4⟩

/-- homa_add_packet preserves the gap-list invariant, for any segment
with a nonnegative length. -/
theorem homa_add_packet_WF {m : homa_message_in} {s len : Int}
    (h : gapsWF 0 m.recv_end m.gaps) (hre : 0 ≤ m.recv_end) (hlen : 0 ≤ len) :
    0 ≤ (homa_add_packet m s len).recv_end ∧
    gapsWF 0 (homa_add_packet m s len).recv_end (homa_add_packet m s len).gaps := by
  simp only [homa_add_packet]
  split_ifs with c1 c2 c3
  · exact ⟨hre, h⟩
  · refine ⟨?_, ?_⟩
    · show (0:Int) ≤ m.recv_end + len
      omega
    · show gapsWF 0 (m.recv_end + len) m.gaps
      exact gapsWF_mono_stop h (by omega)
  · refine ⟨?_, ?_⟩
    · show (0:Int) ≤ s + len
      omega
    · show gapsWF 0 (s + len) (m.gaps ++ [{ start := m.recv_end, end_ := s }])
      exact gapsWF_append h hre le_rfl (by omega) (by omega) (by omega)
  · rcases hw : homa_add_packet_gaps s (s + len) m.gaps with _ | gs
    · simpa [hw] using ⟨hre, h⟩
    · exact ⟨hre, homa_add_packet_gaps_WF h (by omega) hw⟩

/-- If the gap walk accepts a segment, that segment lay entirely
within one of the gaps of the list. -/
theorem homa_add_packet_gaps_some_contains {s e : Int} {l gs : List homa_gap}
    (hsome : homa_add_packet_gaps s e l = some gs) :
    ∃ g ∈ l, g.start ≤ s ∧ e ≤ g.end_ := by
  induction l generalizing gs with
  | nil => simp [homa_add_packet_gaps] at hsome
  | cons g rest ih =>
      simp only [homa_add_packet_gaps] at hsome
      split_ifs at hsome with c1 c2 c3 c4 c5 c6 c7 c8
      · cases hrec : homa_add_packet_gaps s e rest with
        | none => rw [hrec] at hsome; cases hsome
        | some gs' =>
            obtain ⟨g', hg', hc⟩ := ih hrec
            exact ⟨g', List.mem_cons_of_mem g hg', hc⟩
      · exact ⟨g, List.mem_cons_self g rest, by omega, by omega⟩
      · exact ⟨g, List.mem_cons_self g rest, by omega, by omega⟩
      · cases hrec : homa_add_packet_gaps s e rest with
        | none => rw [hrec] at hsome; cases hsome
        | some gs' =>
            obtain ⟨g', hg', hc⟩ := ih hrec
            exact ⟨g', List.mem_cons_of_mem g hg', hc⟩
      · exact ⟨g, List.mem_cons_self g rest, by omega, by omega⟩
      · exact ⟨g, List.mem_cons_self g rest, by omega, by omega⟩

/-- If the gap walk falls through to `discard`, no gap of a
well-formed list entirely contained the (nonempty) segment. -/
theorem homa_add_packet_gaps_none_contains {lo stop s e : Int} {l : List homa_gap}
    (h : gapsWF lo stop l) (hse : s < e)
    (hnone : homa_add_packet_gaps s e l = none) :
    ∀ g ∈ l, ¬(g.start ≤ s ∧ e ≤ g.end_) := by
  induction l generalizing lo with
  | nil => intro g hg; cases hg
  | cons g rest ih =>
      obtain ⟨h1, h2, h3, h4⟩ := h
      have hstarts := gapsWF_starts h4
      simp only [homa_add_packet_gaps] at hnone
      split_ifs at hnone with c1 c2 c3 c4 c5 c6 c7 c8
      · -- segment strictly before this gap: recurse
        cases hrec : homa_add_packet_gaps s e rest with
        | none =>
            intro g' hg'
            rcases List.mem_cons.mp hg' with hg' | hg'
            · subst hg'; omega
            · exact ih h4 hrec g' hg'
        | some gs' => rw [hrec] at hnone; cases hnone
      · -- segment overlaps the start boundary of this gap
        intro g' hg'
        rcases List.mem_cons.mp hg' with hg' | hg'
        · subst hg'; omega
        · have := hstarts g' hg'; omega
      · -- segment overlaps the end boundary (start aligned at gap start)
        intro g' hg'
        rcases List.mem_cons.mp hg' with hg' | hg'
        · subst hg'; omega
        · have := hstarts g' hg'; omega
      · -- segment strictly after this gap: recurse
        cases hrec : homa_add_packet_gaps s e rest with
        | none =>
            intro g' hg'
            rcases List.mem_cons.mp hg' with hg' | hg'
            · subst hg'; omega
            · exact ih h4 hrec g' hg'
        | some gs' => rw [hrec] at hnone; cases hnone
      · -- segment starts inside the gap but overruns its end
        intro g' hg'
        rcases List.mem_cons.mp hg' with hg' | hg'
        · subst hg'; omega
        · have := hstarts g' hg'; omega

/-- After the gap walk accepts a segment, no gap of the resulting
list contains any part of it: in particular none contains it whole. -/
theorem homa_add_packet_gaps_result_free {lo stop s e : Int} {l gs : List homa_gap}
    (h : gapsWF lo stop l) (hse : s < e)
    (hsome : homa_add_packet_gaps s e l = some gs) :
    ∀ g ∈ gs, ¬(g.start ≤ s ∧ e ≤ g.end_) := by
  induction l generalizing lo gs with
  | nil => simp [homa_add_packet_gaps] at hsome
  | cons g rest ih =>
      obtain ⟨h1, h2, h3, h4⟩ := h
      have hstarts := gapsWF_starts h4
      simp only [homa_add_packet_gaps] at hsome
      split_ifs at hsome with c1 c2 c3 c4 c5 c6 c7 c8
      · cases hrec : homa_add_packet_gaps s e rest with
        | none => rw [hrec] at hsome; cases hsome
        | some gs' =>
            rw [hrec] at hsome
            cases hsome
            intro g' hg'
            rcases List.mem_cons.mp hg' with hg' | hg'
            · subst hg'; omega
            · exact ih h4 hrec g' hg'
      · -- gap fully consumed and freed
        cases hsome
        intro g' hg'
        have := hstarts g' hg'
        omega
      · -- gap trimmed at its start
        cases hsome
        intro g' hg'
        rcases List.mem_cons.mp hg' with hg' | hg'
        · subst hg'; simp only; omega
        · have := hstarts g' hg'; omega
      · cases hrec : homa_add_packet_gaps s e rest with
        | none => rw [hrec] at hsome; cases hsome
        | some gs' =>
            rw [hrec] at hsome
            cases hsome
            intro g' hg'
            rcases List.mem_cons.mp hg' with hg' | hg'
            · subst hg'; omega
            · exact ih h4 hrec g' hg'
      · -- gap trimmed at its end
        cases hsome
        intro g' hg'
        rcases List.mem_cons.mp hg' with hg' | hg'
        · subst hg'; simp only; omega
        · have := hstarts g' hg'; omega
      · -- gap split in two
        cases hsome
        intro g' hg'
        rcases List.mem_cons.mp hg' with hg' | hg'
        · subst hg'; simp only; omega
        · rcases List.mem_cons.mp hg' with hg' | hg'
          · subst hg'; simp only; omega
          · have := hstarts g' hg'; omega

/-- homa_add_packet either discards (state untouched) or keeps the
packet (enqueued at the tail, `bytes_remaining` debited by the
segment length). -/
theorem homa_add_packet_cases (m : homa_message_in) (s len : Int) :
    homa_add_packet m s len = m ∨
    ((homa_add_packet m s len).packets = m.packets ++ [(s, len)] ∧
     (homa_add_packet m s len).bytes_remaining = m.bytes_remaining - len ∧
     (homa_add_packet m s len).length = m.length) := by
  simp only [homa_add_packet]
  split_ifs with c1 c2 c3
  · exact Or.inl rfl
  · exact Or.inr ⟨rfl, rfl, rfl⟩
  · exact Or.inr ⟨rfl, rfl, rfl⟩
  · rcases hw : homa_add_packet_gaps s (s + len) m.gaps with _ | gs
    · exact Or.inl rfl
    · exact Or.inr ⟨rfl, rfl, rfl⟩

/-- Claim C9, counterexample: the claim says a zero-length DATA segment
is treated as a protocol error and discarded with the MsgIn state
unchanged; but at offset == recv_end the code keeps it, appending it to
the packet queue (state changed). -/
theorem claim_C9_counterexample :
    ¬ (homa_add_packet (homa_message_in_init 100 100 1) 0 0
        = homa_message_in_init 100 100 1) ∧
    (homa_add_packet (homa_message_in_init 100 100 1) 0 0).packets
      = [(0, 0)] := by
  decide

/-- Claim C9, amended: homa_add_packet never changes bytes_remaining
(or the message length) for a zero-length segment, but it does not
discard every such segment: one arriving at offset == recv_end (or
strictly inside a gap, or past recv_end) is accepted and enqueued. -/
theorem claim_C9_amended (m : homa_message_in) (off : Int) :
    (homa_add_packet m off 0).bytes_remaining = m.bytes_remaining ∧
    (homa_add_packet m off 0).length = m.length := by
  rcases homa_add_packet_cases m off 0 with hd | ⟨hp, hb, hl⟩
  · rw [hd]
    exact ⟨rfl, rfl⟩
  · exact ⟨by omega, hl⟩

/-- Claim C10: homa_grant_pkt leaves msgout.granted unchanged unless
the RPC is OUTGOING; when it is OUTGOING the new granted offset is
max(old granted, min(grant offset, message length)); it never
decreases and never exceeds the message length, even when the grant
offset does. -/
theorem claim_C10_grant_pkt (rpc : homa_rpc) (offset priority : Int)
    (hinv : rpc.msgout.granted ≤ rpc.msgout.length) :
    (rpc.state ≠ RPC_OUTGOING →
       (homa_grant_pkt rpc offset priority).msgout.granted = rpc.msgout.granted) ∧
    (rpc.state = RPC_OUTGOING →
       (homa_grant_pkt rpc offset priority).msgout.granted
         = max rpc.msgout.granted (min offset rpc.msgout.length)) ∧
    rpc.msgout.granted ≤ (homa_grant_pkt rpc offset priority).msgout.granted ∧
    (homa_grant_pkt rpc offset priority).msgout.granted ≤ rpc.msgout.length := by
  refine ⟨?_, ?_, ?_, ?_⟩ <;> unfold homa_grant_pkt
  · intro hne
    rw [if_neg hne]
  · intro hst
    rw [if_pos hst]
    show (if offset > rpc.msgout.granted then
            if offset > rpc.msgout.length then rpc.msgout.length else offset
          else rpc.msgout.granted)
        = max rpc.msgout.granted (min offset rpc.msgout.length)
    split_ifs <;> omega
  · by_cases hst : rpc.state = RPC_OUTGOING
    · rw [if_pos hst]
      show rpc.msgout.granted ≤
        (if offset > rpc.msgout.granted then
           if offset > rpc.msgout.length then rpc.msgout.length else offset
         else rpc.msgout.granted)
      split_ifs <;> omega
    · rw [if_neg hst]
  · by_cases hst : rpc.state = RPC_OUTGOING
    · rw [if_pos hst]
      show (if offset > rpc.msgout.granted then
              if offset > rpc.msgout.length then rpc.msgout.length else offset
            else rpc.msgout.granted) ≤ rpc.msgout.length
      split_ifs <;> omega
    · rw [if_neg hst]
      exact hinv

/-- Witness for claim C10: a concrete OUTGOING RPC with granted 100,
length 500, receiving a grant to offset 900 (past the message end). -/
theorem claim_C10_witness :
    (mk_rpc 2 1 0 0 0 0).msgout.granted ≤ (mk_rpc 2 1 0 0 0 0).msgout.length ∧
    (homa_grant_pkt
        { mk_rpc 2 1 0 0 0 0 with
          state := RPC_OUTGOING
          msgout := { length := 500, granted := 100, sched_priority := 0,
                      next_xmit_offset := 0 } } 900 3).msgout.granted = 500 := by
  refine ⟨by decide, ?_⟩
  have h := (claim_C10_grant_pkt
    { mk_rpc 2 1 0 0 0 0 with
      state := RPC_OUTGOING
      msgout := { length := 500, granted := 100, sched_priority := 0,
                  next_xmit_offset := 0 } } 900 3 (by decide)).2.1 rfl
  rw [h]
  decide

/-- Claim C7: with no cached RPC and a lookup miss, homa_pkt_dispatch
(a) hands a DATA packet for a server-side id to its handler with the
RPC homa_rpc_new_server created, (b) discards and meters GRANT, BUSY
and DATA packets for an unknown client id, and (c) lets CUTOFFS,
NEED_ACK, ACK and RESEND proceed to their handlers with a NULL RPC. -/
theorem claim_C7_dispatch_unknown (id : Nat)
    (fs fc ns : Option homa_rpc) :
    (homa_is_client id = false → ∀ r, ns = some r →
       homa_pkt_dispatch_route DATA id none fs fc ns = handle (some r)) ∧
    (∀ t, homa_is_client id = true → fc = none →
       (t = GRANT ∨ t = BUSY ∨ t = DATA) →
       homa_pkt_dispatch_route t id none fs fc ns = discard true) ∧
    (∀ t, (t = CUTOFFS ∨ t = NEED_ACK ∨ t = ACK ∨ t = RESEND) →
       (homa_is_client id = true → fc = none) →
       (homa_is_client id = false → fs = none) →
       homa_pkt_dispatch_route t id none fs fc ns = handle none) := by
  refine ⟨?_, ?_, ?_⟩
  · intro hcl r hns
    simp [homa_pkt_dispatch_route, hcl, hns]
  · rintro t hcl hfc (rfl | rfl | rfl) <;>
      simp [homa_pkt_dispatch_route, hcl, hfc]
  · rintro t (rfl | rfl | rfl | rfl) hfc hfs <;>
      cases hcl : homa_is_client id <;>
      first
        | simp [homa_pkt_dispatch_route, hcl, hfs hcl]
        | simp [homa_pkt_dispatch_route, hcl, hfc hcl]

/-- Witness for claim C7: concrete instantiations of the three cases
(server id 1 with a freshly created RPC; client id 2 with a failed
lookup; ACK for server id 1 with a failed lookup). -/
theorem claim_C7_witness :
    homa_pkt_dispatch_route DATA 1 none none none (some (mk_rpc 1 1 0 0 0 0))
      = handle (some (mk_rpc 1 1 0 0 0 0)) ∧
    homa_pkt_dispatch_route GRANT 2 none none none none = discard true ∧
    homa_pkt_dispatch_route ACK 1 none none none none = handle none := by
  refine ⟨?_, ?_, ?_⟩
  · exact (claim_C7_dispatch_unknown 1 none none (some (mk_rpc 1 1 0 0 0 0))).1
      (by decide) (mk_rpc 1 1 0 0 0 0) rfl
  · exact (claim_C7_dispatch_unknown 2 none none none).2.1 GRANT (by decide) rfl
      (Or.inl rfl)
  · exact (claim_C7_dispatch_unknown 1 none none none).2.2 ACK
      (Or.inr (Or.inr (Or.inl rfl))) (fun hc => rfl) (fun hc => rfl)

/-- Claim C8: when no matching RPC ever becomes ready (registration
links the interest and returns nothing), a NONBLOCKING wait returns
-EAGAIN; and when the socket has been shut down before registration,
the wait returns -ESHUTDOWN (for any id that passes the lookup
validation that precedes the shutdown check). -/
theorem claim_C8_wait_errors (hsk : homa_sock) (freq fresp : Bool)
    (id : Nat) (crpc : Option homa_rpc) (signal : Bool) (copy_errno : Int) :
    (homa_register_interests hsk freq fresp id crpc = .ok none →
       homa_wait_for_message hsk freq fresp true id crpc signal copy_errno
         = .failed (-EAGAIN)) ∧
    (hsk.shutdown = true →
       (id = 0 ∨ (homa_is_client id = true ∧
                  ∃ r, crpc = some r ∧ r.has_interest = false)) →
       ∀ nonblocking,
       homa_wait_for_message hsk freq fresp nonblocking id crpc signal copy_errno
         = .failed (-ESHUTDOWN)) := by
  constructor
  · intro hreg
    unfold homa_wait_for_message
    rw [hreg]
    rfl
  · intro hsd hid nonblocking
    have hreg : homa_register_interests hsk freq fresp id crpc
        = .error (-ESHUTDOWN) := by
      unfold homa_register_interests
      rcases hid with rfl | ⟨hcl, r, rfl, hint⟩
      · rw [if_neg (by simp), if_neg (by simp), if_neg (by simp), if_pos hsd]
      · rw [if_neg (by simp [hcl]), if_neg (by simp), if_neg (by simp [hint]),
            if_pos hsd]
    unfold homa_wait_for_message
    rw [hreg]

/-- Witness for claim C8: a live socket with empty ready queues for
the EAGAIN case, and a shut-down socket for the ESHUTDOWN case. -/
theorem claim_C8_witness :
    homa_wait_for_message
        { shutdown := false, ready_requests := [], ready_responses := [] }
        true true true 0 none false 0 = .failed (-EAGAIN) ∧
    homa_wait_for_message
        { shutdown := true, ready_requests := [], ready_responses := [] }
        true true false 0 none false 0 = .failed (-ESHUTDOWN) := by
  constructor
  · exact (claim_C8_wait_errors
      { shutdown := false, ready_requests := [], ready_responses := [] }
      true true 0 none false 0).1 rfl
  · exact (claim_C8_wait_errors
      { shutdown := true, ready_requests := [], ready_responses := [] }
      true true 0 none false 0).2 rfl (Or.inl rfl) false

/-- Claim C1, counterexample: with the grantable list holding exactly
the scheduled RPCs A, B, C (bytes_remaining 10,000 / 5,000 / 7,500)
the list order is indeed B, C, A and the grant round ranks them
0, 1, 2 -- but with max_sched_prio = 7 the priorities assigned by
homa_create_grants are 2, 1, 0, not the 7, 6, 5 the claim states
(the band is shifted down by extra_levels = max_sched_prio + 1 -
num_rpcs = 5). -/
theorem claim_C1_counterexample :
    c1_table.grantable_rpcs.map (fun r => r.id) = [2, 3, 1] ∧
    c1_round.map (fun p => p.1.id) = [2, 3, 1] ∧
    c1_round.map (fun p => p.2.priority) = [2, 1, 0] ∧
    ¬ (c1_round.map (fun p => p.2.priority) = [7, 6, 5]) := by
  decide

/-- Claim C1, amended: whatever order A, B, C are inserted in,
homa_check_grantable produces the list B, C, A (bytes_remaining
ascending); the grant round ranks them 0, 1, 2 and, with
max_sched_prio = 7, assigns priorities 2, 1, 0 (the lowest levels:
max_sched_prio - rank - extra_levels with extra_levels = 5). -/
theorem claim_C1_amended :
    ((c1_fill [(c1_rpc_A, 10), (c1_rpc_B, 20), (c1_rpc_C, 30)]).grantable_rpcs.map
       (fun r => r.id) = [2, 3, 1]) ∧
    ((c1_fill [(c1_rpc_A, 10), (c1_rpc_C, 20), (c1_rpc_B, 30)]).grantable_rpcs.map
       (fun r => r.id) = [2, 3, 1]) ∧
    ((c1_fill [(c1_rpc_B, 10), (c1_rpc_A, 20), (c1_rpc_C, 30)]).grantable_rpcs.map
       (fun r => r.id) = [2, 3, 1]) ∧
    ((c1_fill [(c1_rpc_B, 10), (c1_rpc_C, 20), (c1_rpc_A, 30)]).grantable_rpcs.map
       (fun r => r.id) = [2, 3, 1]) ∧
    ((c1_fill [(c1_rpc_C, 10), (c1_rpc_A, 20), (c1_rpc_B, 30)]).grantable_rpcs.map
       (fun r => r.id) = [2, 3, 1]) ∧
    ((c1_fill [(c1_rpc_C, 10), (c1_rpc_B, 20), (c1_rpc_A, 30)]).grantable_rpcs.map
       (fun r => r.id) = [2, 3, 1]) ∧
    c1_round.map (fun p => (p.1.id, p.2.priority)) = [(2, 2), (3, 1), (1, 0)] := by
  decide

theorem homa_peer_count_cons_self {peers : List (Nat × Nat)} {q c : Nat} :
    homa_peer_count ((q, c) :: peers) q = some c := by
  simp [homa_peer_count, List.find?_cons]

theorem homa_peer_count_cons_other {peers : List (Nat × Nat)} {p q c : Nat}
    (hne : p ≠ q) :
    homa_peer_count ((q, c) :: peers) p = homa_peer_count peers p := by
  simp [homa_peer_count, List.find?_cons, Ne.symm hne]

theorem homa_peer_count_bump_other {peers : List (Nat × Nat)} {p q : Nat}
    (hne : p ≠ q) :
    homa_peer_count (homa_peer_bump peers q) p = homa_peer_count peers p := by
  induction peers with
  | nil => rfl
  | cons a rest ih =>
      simp only [homa_peer_bump, List.map_cons] at ih ⊢
      by_cases haq : a.1 = q
      · have hap : ¬ a.1 = p := by omega
        simp only [if_pos haq, homa_peer_count, List.find?_cons]
        rw [decide_eq_false (show ¬ ((a.1, a.2 + 1) : Nat × Nat).1 = p from hap)]
        exact ih
      · rw [if_neg haq]
        by_cases hap : a.1 = p
        · simp only [homa_peer_count, List.find?_cons, decide_eq_true hap]
        · simp only [homa_peer_count, List.find?_cons, decide_eq_false hap]
          exact ih

theorem homa_peer_count_bump_self {peers : List (Nat × Nat)} {q c : Nat}
    (hq : homa_peer_count peers q = some c) :
    homa_peer_count (homa_peer_bump peers q) q = some (c + 1) := by
  induction peers with
  | nil => cases hq
  | cons a rest ih =>
      simp only [homa_peer_bump, List.map_cons] at *
      by_cases haq : a.1 = q
      · rw [if_pos haq]
        simp only [homa_peer_count, List.find?_cons] at *
        rw [decide_eq_true haq] at hq
        rw [decide_eq_true (haq : ((a.1, a.2 + 1) : Nat × Nat).1 = q)]
        simp only [Option.map_some] at hq ⊢
        cases hq
        rfl
      · rw [if_neg haq]
        simp only [homa_peer_count, List.find?_cons] at *
        rw [decide_eq_false haq] at hq ⊢
        exact ih hq

/-- The scan loop of homa_choose_rpcs_to_grant selects at most
`maxPer - seen(p)` further RPCs of peer `p`, where `seen(p)` is the
count already recorded for `p` in the bookkeeping table (requires
maxPer ≥ 1: with maxPer = 0 a peer's first RPC is still selected,
because the cap is only checked for peers already in the table). -/
theorem homa_choose_go_peer_bound (maxPer max_rpcs p : Nat) (hmax : 1 ≤ maxPer) :
    ∀ (l : List homa_rpc) (peers : List (Nat × Nat)) (n : Nat),
    (homa_choose_rpcs_to_grant_go maxPer max_rpcs l peers n).countP
        (fun r => r.peer == p)
      ≤ maxPer - ((homa_peer_count peers p).getD 0) := by
  intro l
  induction l with
  | nil =>
      intro peers n
      simp [homa_choose_rpcs_to_grant_go]
  | cons rpc rest ih =>
      intro peers n
      simp only [homa_choose_rpcs_to_grant_go]
      rcases hpc : homa_peer_count peers rpc.peer with _ | c <;>
        simp only [hpc]
      · -- peer not seen before: always selected
        by_cases hbr : n + 1 ≥ max_rpcs
        · rw [if_pos hbr]
          by_cases hpp : rpc.peer = p
          · subst hpp
            rw [hpc]
            simp [List.countP_cons]
            simp only [Option.getD_some, Option.getD_none] at *
            omega
          · simp [List.countP_cons, hpp]
        · rw [if_neg hbr]
          rw [List.countP_cons]
          by_cases hpp : rpc.peer = p
          · subst hpp
            have hcons : homa_peer_count ((rpc.peer, 1) :: peers) rpc.peer
                = some 1 := homa_peer_count_cons_self
            have hrec := ih ((rpc.peer, 1) :: peers) (n + 1)
            rw [hcons] at hrec
            rw [hpc]
            simp only [beq_self_eq_true, if_pos]
            simp only [Option.getD_some, Option.getD_none] at *
            omega
          · have hcons : homa_peer_count ((rpc.peer, 1) :: peers) p
                = homa_peer_count peers p :=
              homa_peer_count_cons_other (fun hc => hpp hc.symm)
            have hrec := ih ((rpc.peer, 1) :: peers) (n + 1)
            rw [hcons] at hrec
            simpa [show (rpc.peer == p) = false by simp [hpp]] using hrec
      · by_cases hskip : c + 1 > maxPer
        · rw [if_pos hskip]
          by_cases hpp : rpc.peer = p
          · subst hpp
            have hbump := homa_peer_count_bump_self hpc
            have hrec := ih (homa_peer_bump peers rpc.peer) n
            rw [hbump] at hrec
            rw [hpc]
            simp only [Option.getD_some, Option.getD_none] at *
            omega
          · have hbump : homa_peer_count (homa_peer_bump peers rpc.peer) p
                = homa_peer_count peers p :=
              homa_peer_count_bump_other (fun hc => hpp hc.symm)
            have hrec := ih (homa_peer_bump peers rpc.peer) n
            rw [hbump] at hrec
            exact hrec
        · rw [if_neg hskip]
          by_cases hbr : n + 1 ≥ max_rpcs
          · rw [if_pos hbr]
            by_cases hpp : rpc.peer = p
            · subst hpp
              rw [hpc]
              simp [List.countP_cons]
              simp only [Option.getD_some, Option.getD_none] at *
              omega
            · simp [List.countP_cons, hpp]
          · rw [if_neg hbr]
            rw [List.countP_cons]
            by_cases hpp : rpc.peer = p
            · subst hpp
              have hbump := homa_peer_count_bump_self hpc
              have hrec := ih (homa_peer_bump peers rpc.peer) (n + 1)
              rw [hbump] at hrec
              rw [hpc]
              simp only [beq_self_eq_true, if_pos]
              simp only [Option.getD_some, Option.getD_none] at *
              omega
            · have hbump : homa_peer_count (homa_peer_bump peers rpc.peer) p
                  = homa_peer_count peers p :=
                homa_peer_count_bump_other (fun hc => hpp hc.symm)
              have hrec := ih (homa_peer_bump peers rpc.peer) (n + 1)
              rw [hbump] at hrec
              simpa [show (rpc.peer == p) = false by simp [hpp]] using hrec

/-- Claim C6, counterexample: the claim quantifies over every
configured max_rpcs_per_peer, but with max_rpcs_per_peer = 0 the scan
still selects the first RPC of each peer (the cap is only enforced
against peers already recorded in the bookkeeping table), so one RPC
of peer 1 is chosen even though the cap is 0. -/
theorem claim_C6_counterexample :
    ¬ ((homa_choose_rpcs_to_grant { c6_table with max_rpcs_per_peer := 0 } 10).countP
         (fun r => r.peer == 1)
       ≤ ({ c6_table with max_rpcs_per_peer := 0 } : homa).max_rpcs_per_peer) := by
  decide

/-- Claim C6, amended: for every configured max_rpcs_per_peer ≥ 1 the
set selected by homa_choose_rpcs_to_grant holds at most
max_rpcs_per_peer RPCs of any single peer; in the concrete scenario
(max_rpcs_per_peer = 2, list order A(p1), B(p1), C(p1), D(p2)) the
selection is A, B, D with C skipped.  (With max_rpcs_per_peer = 0 one
RPC per peer is still selected.) -/
theorem claim_C6_amended (h : homa) (max_rpcs : Nat) (p : Nat)
    (hmax : 1 ≤ h.max_rpcs_per_peer) :
    (homa_choose_rpcs_to_grant h max_rpcs).countP (fun r => r.peer == p)
      ≤ h.max_rpcs_per_peer ∧
    (homa_choose_rpcs_to_grant c6_table c6_table.max_overcommit).map (fun r => r.id)
      = [1, 2, 4] := by
  constructor
  · have hb := homa_choose_go_peer_bound h.max_rpcs_per_peer max_rpcs p hmax
      h.grantable_rpcs [] 0
    simpa [homa_choose_rpcs_to_grant, homa_peer_count] using hb
  · decide

/-- Witness for claim C6: the per-peer bound evaluated on the concrete
four-RPC table with max_rpcs_per_peer = 2. -/
theorem claim_C6_witness :
    (homa_choose_rpcs_to_grant c6_table 10).countP (fun r => r.peer == 1)
      ≤ c6_table.max_rpcs_per_peer ∧
    (homa_choose_rpcs_to_grant c6_table c6_table.max_overcommit).map (fun r => r.id)
      = [1, 2, 4] :=
  claim_C6_amended c6_table 10 1 (by decide)

/-- The homa_create_grants loop never touches the scalar bookkeeping
fields of homa (only the grantable list), and the bytes it grants are
nonnegative and never exceed `available`. -/
theorem homa_create_grants_go_bound (w msp : Int) (n : Nat) :
    ∀ (l : List homa_rpc) (rank : Nat) (available : Int) (h : homa),
    0 ≤ available →
    ((homa_create_grants_go w msp n l rank available h).2.2.total_incoming
       = h.total_incoming ∧
     (homa_create_grants_go w msp n l rank available h).2.2.max_incoming
       = h.max_incoming ∧
     (homa_create_grants_go w msp n l rank available h).2.2.grant_fifo_fraction
       = h.grant_fifo_fraction ∧
     (homa_create_grants_go w msp n l rank available h).2.2.fifo_grant_increment
       = h.fifo_grant_increment ∧
     (homa_create_grants_go w msp n l rank available h).2.2.unsched_bytes
       = h.unsched_bytes) ∧
    0 ≤ (homa_create_grants_go w msp n l rank available h).2.1 ∧
    (homa_create_grants_go w msp n l rank available h).2.1 ≤ available := by
  intro l
  induction l with
  | nil =>
      intro rank available h hav
      exact ⟨⟨rfl, rfl, rfl, rfl, rfl⟩, le_refl 0, hav⟩
  | cons rpc rest ih =>
      intro rank available h hav
      have hsnd : ∀ (x : homa_rpc × grant_header)
          (l' : List (homa_rpc × grant_header)) (g : Int) (hh : homa),
          ((x :: l', g, hh) : List (homa_rpc × grant_header) × Int × homa).2.1 = g :=
        fun _ _ _ _ => rfl
      simp only [homa_create_grants_go]
      split_ifs with hc1 hc2 hclip hrm
      · exact ih (rank + 1) available h hav
      · exact ⟨⟨rfl, rfl, rfl, rfl, rfl⟩, le_refl 0, hav⟩
      · -- grant clipped to `available`; RPC fully granted and removed
        obtain ⟨⟨e1, e2, e3, e4, e5⟩, b1, b2⟩ :=
          ih (rank + 1) (available - available) _ (by omega)
        refine ⟨⟨e1, e2, e3, e4, e5⟩, ?_, ?_⟩ <;>
          · rw [hsnd]
            omega
      · -- grant clipped to `available`
        obtain ⟨⟨e1, e2, e3, e4, e5⟩, b1, b2⟩ :=
          ih (rank + 1) (available - available) _ (by omega)
        refine ⟨⟨e1, e2, e3, e4, e5⟩, ?_, ?_⟩ <;>
          · rw [hsnd]
            omega
      · -- full window grant; RPC fully granted and removed
        obtain ⟨⟨e1, e2, e3, e4, e5⟩, b1, b2⟩ :=
          ih (rank + 1)
            (available - (homa_grant_window_end w rpc - rpc.msgin.granted)) _
            (by omega)
        refine ⟨⟨e1, e2, e3, e4, e5⟩, ?_, ?_⟩ <;>
          · rw [hsnd]
            omega
      · -- full window grant
        obtain ⟨⟨e1, e2, e3, e4, e5⟩, b1, b2⟩ :=
          ih (rank + 1)
            (available - (homa_grant_window_end w rpc - rpc.msgin.granted)) _
            (by omega)
        refine ⟨⟨e1, e2, e3, e4, e5⟩, ?_, ?_⟩ <;>
          · rw [hsnd]
            omega

/-- homa_create_grants adds at most `available` bytes to
total_incoming and leaves the configuration scalars untouched. -/
theorem homa_create_grants_incoming (h : homa) (rpcs : List homa_rpc)
    (available : Int) (hav : 0 ≤ available) :
    ((homa_create_grants h rpcs available).2.total_incoming
       ≤ h.total_incoming + available ∧
     h.total_incoming ≤ (homa_create_grants h rpcs available).2.total_incoming) ∧
    (homa_create_grants h rpcs available).2.max_incoming = h.max_incoming ∧
    (homa_create_grants h rpcs available).2.grant_fifo_fraction
      = h.grant_fifo_fraction ∧
    (homa_create_grants h rpcs available).2.fifo_grant_increment
      = h.fifo_grant_increment ∧
    (homa_create_grants h rpcs available).2.unsched_bytes = h.unsched_bytes := by
  obtain ⟨⟨e1, e2, e3, e4, e5⟩, b1, b2⟩ :=
    homa_create_grants_go_bound
      (if h.window = 0 then Int.tdiv h.max_incoming ((rpcs.length : Int) + 1)
       else h.window)
      h.max_sched_prio rpcs.length rpcs 0 available h hav
  have heq : (homa_create_grants h rpcs available).2.total_incoming
      = (homa_create_grants_go
          (if h.window = 0 then Int.tdiv h.max_incoming ((rpcs.length : Int) + 1)
           else h.window)
          h.max_sched_prio rpcs.length rpcs 0 available h).2.2.total_incoming
        + (homa_create_grants_go
            (if h.window = 0 then Int.tdiv h.max_incoming ((rpcs.length : Int) + 1)
             else h.window)
            h.max_sched_prio rpcs.length rpcs 0 available h).2.1 := rfl
  refine ⟨⟨?_, ?_⟩, e2, e3, e4, e5⟩
  · rw [heq, e1]
    omega
  · rw [heq, e1]
    omega

/-- homa_choose_fifo_grant adds at most fifo_grant_increment bytes to
total_incoming (exactly that many unless the grant was clipped at the
message end), never removes bytes it did not add, and leaves the
configuration scalars untouched. -/
theorem homa_choose_fifo_grant_incoming (h : homa)
    (hfi : 0 ≤ h.fifo_grant_increment) :
    (homa_choose_fifo_grant h).2.total_incoming
      ≤ h.total_incoming + h.fifo_grant_increment ∧
    (homa_choose_fifo_grant h).2.max_incoming = h.max_incoming := by
  rcases hscan : homa_choose_fifo_grant_scan h.unsched_bytes h.grantable_rpcs
      none (2 ^ 64 - 1) with _ | oldest
  · simp only [homa_choose_fifo_grant, hscan]
    exact ⟨by omega, trivial⟩
  · simp only [homa_choose_fifo_grant, hscan, homa_update_grantable,
      homa_remove_grantable_locked]
    by_cases hend : oldest.msgin.granted + h.fifo_grant_increment
        ≥ oldest.msgin.length
    · simp only [if_pos hend]
      exact ⟨by omega, trivial⟩
    · simp only [if_neg hend]
      exact ⟨by omega, trivial⟩

/-- The FIFO stage adds at most fifo_grant_increment bytes to
total_incoming, none at all when FIFO grants are disabled, and leaves
max_incoming untouched. -/
theorem homa_send_grants_fifo_incoming (h1 : homa)
    (hfi : 0 ≤ h1.fifo_grant_increment) :
    (homa_send_grants_fifo h1).2.total_incoming
      ≤ h1.total_incoming + h1.fifo_grant_increment ∧
    (homa_send_grants_fifo h1).2.max_incoming = h1.max_incoming ∧
    (h1.grant_fifo_fraction = 0 →
       (homa_send_grants_fifo h1).2.total_incoming = h1.total_incoming) := by
  simp only [homa_send_grants_fifo]
  split_ifs with hnf hfr
  · obtain ⟨ht, hm⟩ := homa_choose_fifo_grant_incoming
      { h1 with grant_nonfifo_left := h1.grant_nonfifo_left + h1.grant_nonfifo } hfi
    refine ⟨ht, hm, ?_⟩
    intro hz
    exact absurd hz (by simpa using hfr)
  · exact ⟨le_add_of_nonneg_right hfi, rfl, fun _ => rfl⟩
  · exact ⟨le_add_of_nonneg_right hfi, rfl, fun _ => rfl⟩

/-- Claim C2, counterexample: starting from total_incoming = 99 ≤
max_incoming = 100, one homa_send_grants call that issues a FIFO pity
grant leaves total_incoming = 1099 > max_incoming (the FIFO grant in
homa_choose_fifo_grant is added to total_incoming without checking
the remaining budget). -/
theorem claim_C2_counterexample :
    c2_table.total_incoming ≤ c2_table.max_incoming ∧
    ¬ ((homa_send_grants c2_table).1.total_incoming ≤ c2_table.max_incoming) := by
  decide

/-- Claim C2, amended: after homa_send_grants, total_incoming never
exceeds max_incoming + fifo_grant_increment; and it never exceeds
max_incoming itself when FIFO grants are disabled
(grant_fifo_fraction = 0).  Only the FIFO pity grant can push
total_incoming past max_incoming, and by at most its increment. -/
theorem claim_C2_amended (h : homa)
    (hb : h.total_incoming ≤ h.max_incoming)
    (hfi : 0 ≤ h.fifo_grant_increment) :
    (homa_send_grants h).1.total_incoming
      ≤ h.max_incoming + h.fifo_grant_increment ∧
    (h.grant_fifo_fraction = 0 →
       (homa_send_grants h).1.total_incoming ≤ h.max_incoming) := by
  simp only [homa_send_grants]
  split_ifs with hemp hav
  · exact ⟨le_trans hb (le_add_of_nonneg_right hfi), fun _ => hb⟩
  · exact ⟨le_trans hb (le_add_of_nonneg_right hfi), fun _ => hb⟩
  · obtain ⟨⟨t1, t2⟩, m1, f1, i1, u1⟩ := homa_create_grants_incoming h
      (homa_choose_rpcs_to_grant h h.max_overcommit)
      (h.max_incoming - h.total_incoming) (by omega)
    obtain ⟨ft, fm, fz⟩ := homa_send_grants_fifo_incoming
      (homa_create_grants h (homa_choose_rpcs_to_grant h h.max_overcommit)
        (h.max_incoming - h.total_incoming)).2 (by omega)
    have hfst : ∀ (a : homa) (b : List (homa_rpc × grant_header))
        (c : Option (homa_rpc × grant_header)),
        ((a, b, c) : homa × List (homa_rpc × grant_header) ×
            Option (homa_rpc × grant_header)).1 = a :=
      fun _ _ _ => rfl
    rcases hfp : (homa_send_grants_fifo
        (homa_create_grants h (homa_choose_rpcs_to_grant h h.max_overcommit)
          (h.max_incoming - h.total_incoming)).2).1 with _ | fr <;>
      simp only [hfp, hfst] <;>
      refine ⟨by omega, fun hz => ?_⟩ <;>
      · have hzz := fz (by omega)
        omega

/-- Witness for claim C2: the amended bound evaluated on the concrete
three-RPC grant table (FIFO grants disabled there, so the round stays
within max_incoming as well). -/
theorem claim_C2_witness :
    (homa_send_grants c1_table).1.total_incoming
      ≤ c1_table.max_incoming + c1_table.fifo_grant_increment ∧
    (c1_table.grant_fifo_fraction = 0 →
       (homa_send_grants c1_table).1.total_incoming ≤ c1_table.max_incoming) :=
  claim_C2_amended c1_table (by decide) (by decide)

/-- Folding homa_add_packet over any packet sequence with nonnegative
segment lengths preserves the gap-list invariant. -/
theorem homa_add_packet_fold_WF :
    ∀ (pkts : List (Int × Int)) (m : homa_message_in),
    (∀ p ∈ pkts, 0 ≤ p.2) → 0 ≤ m.recv_end → gapsWF 0 m.recv_end m.gaps →
    0 ≤ (pkts.foldl (fun m p => homa_add_packet m p.1 p.2) m).recv_end ∧
    gapsWF 0 (pkts.foldl (fun m p => homa_add_packet m p.1 p.2) m).recv_end
      (pkts.foldl (fun m p => homa_add_packet m p.1 p.2) m).gaps := by
  intro pkts
  induction pkts with
  | nil => exact fun m _ hre h => ⟨hre, h⟩
  | cons p rest ih =>
      intro m hp hre h
      rw [List.foldl_cons]
      obtain ⟨hre', h'⟩ :=
        homa_add_packet_WF h hre (hp p (List.mem_cons_self p rest))
      exact ih (homa_add_packet m p.1 p.2)
        (fun q hq => hp q (List.mem_cons_of_mem p hq)) hre' h'

/-- Claim C4: for every sequence of homa_add_packet calls applied to a
MsgIn produced by homa_message_in_init, the gap list stays strictly
ordered by start with non-overlapping entries, and every gap [s, e)
satisfies s < e and e ≤ recv_end.  (The segment lengths are the wire's
unsigned 32-bit values, hence nonnegative.) -/
theorem claim_C4_gap_invariant (pkts : List (Int × Int))
    (len unsched pool : Int) (hpkts : ∀ p ∈ pkts, 0 ≤ p.2) :
    ((pkts.foldl (fun m p => homa_add_packet m p.1 p.2)
        (homa_message_in_init len unsched pool)).gaps.Pairwise
       (fun a b => a.start < b.start)) ∧
    ((pkts.foldl (fun m p => homa_add_packet m p.1 p.2)
        (homa_message_in_init len unsched pool)).gaps.Pairwise
       (fun a b => a.end_ ≤ b.start)) ∧
    (∀ g ∈ (pkts.foldl (fun m p => homa_add_packet m p.1 p.2)
        (homa_message_in_init len unsched pool)).gaps,
       g.start < g.end_ ∧
       g.end_ ≤ (pkts.foldl (fun m p => homa_add_packet m p.1 p.2)
           (homa_message_in_init len unsched pool)).recv_end) := by
  have hinit : 0 ≤ (homa_message_in_init len unsched pool).recv_end ∧
      gapsWF 0 (homa_message_in_init len unsched pool).recv_end
        (homa_message_in_init len unsched pool).gaps := by
    simp only [homa_message_in_init]
    split_ifs <;> exact ⟨le_refl 0, trivial⟩
  obtain ⟨hre, hwf⟩ :=
    homa_add_packet_fold_WF pkts (homa_message_in_init len unsched pool)
      hpkts hinit.1 hinit.2
  have hbounds := gapsWF_bounds hwf
  refine ⟨?_, gapsWF_pairwise hwf, hbounds⟩
  exact (gapsWF_pairwise hwf).imp_of_mem
    (fun ha hb hle => lt_of_lt_of_le (hbounds _ ha).1 hle)

/-- Witness for claim C4: a concrete out-of-order arrival sequence
(gap creation, gap split, gap trim and a discarded overlap). -/
theorem claim_C4_witness :
    ((([(20, 10), (5, 5), (40, 5), (0, 5), (3, 9)] : List (Int × Int)).foldl
        (fun m p => homa_add_packet m p.1 p.2)
        (homa_message_in_init 100 100 1)).gaps.Pairwise
       (fun a b => a.start < b.start)) ∧
    ((([(20, 10), (5, 5), (40, 5), (0, 5), (3, 9)] : List (Int × Int)).foldl
        (fun m p => homa_add_packet m p.1 p.2)
        (homa_message_in_init 100 100 1)).gaps.Pairwise
       (fun a b => a.end_ ≤ b.start)) ∧
    (∀ g ∈ (([(20, 10), (5, 5), (40, 5), (0, 5), (3, 9)] : List (Int × Int)).foldl
        (fun m p => homa_add_packet m p.1 p.2)
        (homa_message_in_init 100 100 1)).gaps,
       g.start < g.end_ ∧
       g.end_ ≤ (([(20, 10), (5, 5), (40, 5), (0, 5), (3, 9)] : List (Int × Int)).foldl
           (fun m p => homa_add_packet m p.1 p.2)
           (homa_message_in_init 100 100 1)).recv_end) :=
  claim_C4_gap_invariant [(20, 10), (5, 5), (40, 5), (0, 5), (3, 9)] 100 100 1
    (by decide)

/-- Branch lemma: a segment past the message end is discarded. -/
theorem homa_add_packet_over (m : homa_message_in) (off len : Int)
    (h1 : off + len > m.length) :
    homa_add_packet m off len = m := by
  simp only [homa_add_packet]
  rw [if_pos h1]

/-- Branch lemma: a sequential segment advances recv_end. -/
theorem homa_add_packet_seq (m : homa_message_in) (off len : Int)
    (h1 : ¬ off + len > m.length) (h2 : off = m.recv_end) :
    homa_add_packet m off len
      = { m with recv_end := m.recv_end + len
                 packets := m.packets ++ [(off, len)]
                 bytes_remaining := m.bytes_remaining - len } := by
  simp only [homa_add_packet]
  rw [if_neg h1, if_pos h2]

/-- Branch lemma: a segment past recv_end opens a new gap. -/
theorem homa_add_packet_newgap (m : homa_message_in) (off len : Int)
    (h1 : ¬ off + len > m.length) (h2 : ¬ off = m.recv_end)
    (h3 : off > m.recv_end) :
    homa_add_packet m off len
      = { m with gaps := m.gaps ++ [{ start := m.recv_end, end_ := off }]
                 recv_end := off + len
                 packets := m.packets ++ [(off, len)]
                 bytes_remaining := m.bytes_remaining - len } := by
  simp only [homa_add_packet]
  rw [if_neg h1, if_neg h2, if_pos h3]

/-- Branch lemma: when the gap walk finds no place for the segment,
the packet is discarded. -/
theorem homa_add_packet_walk_none (m : homa_message_in) (off len : Int)
    (h1 : ¬ off + len > m.length) (h2 : ¬ off = m.recv_end)
    (h3 : ¬ off > m.recv_end)
    (hw : homa_add_packet_gaps off (off + len) m.gaps = none) :
    homa_add_packet m off len = m := by
  simp only [homa_add_packet]
  rw [if_neg h1, if_neg h2, if_neg h3, hw]

/-- Branch lemma: when the gap walk accepts the segment, the packet is
kept with the walked gap list. -/
theorem homa_add_packet_walk_some (m : homa_message_in) (off len : Int)
    {gs : List homa_gap}
    (h1 : ¬ off + len > m.length) (h2 : ¬ off = m.recv_end)
    (h3 : ¬ off > m.recv_end)
    (hw : homa_add_packet_gaps off (off + len) m.gaps = some gs) :
    homa_add_packet m off len
      = { m with gaps := gs
                 packets := m.packets ++ [(off, len)]
                 bytes_remaining := m.bytes_remaining - len } := by
  simp only [homa_add_packet]
  rw [if_neg h1, if_neg h2, if_neg h3, hw]

/-- Claim C3: case analysis of homa_add_packet on a well-formed MsgIn,
for a segment of positive length (zero-length segments are the subject
of the separate zero-length claim): overruns are discarded; a
sequential segment advances recv_end; a segment past recv_end records
the new gap and advances recv_end; a segment below recv_end is kept
exactly when it lies entirely within a single existing gap, and
discarded otherwise; and every kept segment debits bytes_remaining by
exactly its length. -/
theorem claim_C3_add_packet (m : homa_message_in) (off len : Int)
    (hwf : gapsWF 0 m.recv_end m.gaps) (hlen : 0 < len) :
    (off + len > m.length → homa_add_packet m off len = m) ∧
    (off + len ≤ m.length → off = m.recv_end →
       homa_add_packet m off len
         = { m with recv_end := m.recv_end + len
                    packets := m.packets ++ [(off, len)]
                    bytes_remaining := m.bytes_remaining - len }) ∧
    (off + len ≤ m.length → off > m.recv_end →
       homa_add_packet m off len
         = { m with gaps := m.gaps ++ [{ start := m.recv_end, end_ := off }]
                    recv_end := off + len
                    packets := m.packets ++ [(off, len)]
                    bytes_remaining := m.bytes_remaining - len }) ∧
    (off + len ≤ m.length → off < m.recv_end →
       (((homa_add_packet m off len).packets = m.packets ++ [(off, len)]) ↔
          ∃ g ∈ m.gaps, g.start ≤ off ∧ off + len ≤ g.end_)) ∧
    (off + len ≤ m.length → off < m.recv_end →
       ¬ (∃ g ∈ m.gaps, g.start ≤ off ∧ off + len ≤ g.end_) →
       homa_add_packet m off len = m) ∧
    ((homa_add_packet m off len).packets = m.packets ++ [(off, len)] →
       (homa_add_packet m off len).bytes_remaining = m.bytes_remaining - len) := by
  refine ⟨?_, ?_, ?_, ?_, ?_, ?_⟩
  · exact homa_add_packet_over m off len
  · intro h1 h2
    exact homa_add_packet_seq m off len (by omega) h2
  · intro h1 h2
    exact homa_add_packet_newgap m off len (by omega) (by omega) h2
  · intro h1 h2
    constructor
    · intro hkept
      rcases hw : homa_add_packet_gaps off (off + len) m.gaps with _ | gs
      · rw [homa_add_packet_walk_none m off len (by omega) (by omega) (by omega) hw]
          at hkept
        exact absurd (congrArg List.length hkept) (by simp)
      · exact homa_add_packet_gaps_some_contains hw
    · rintro ⟨g, hg, hc1, hc2⟩
      rcases hw : homa_add_packet_gaps off (off + len) m.gaps with _ | gs
      · exact absurd ⟨hc1, hc2⟩
          (homa_add_packet_gaps_none_contains hwf (by omega) hw g hg)
      · rw [homa_add_packet_walk_some m off len (by omega) (by omega) (by omega) hw]
  · intro h1 h2 hnone
    rcases hw : homa_add_packet_gaps off (off + len) m.gaps with _ | gs
    · exact homa_add_packet_walk_none m off len (by omega) (by omega) (by omega) hw
    · exact absurd (homa_add_packet_gaps_some_contains hw) hnone
  · intro hkept
    rcases homa_add_packet_cases m off len with hd | ⟨hp, hb, hl⟩
    · rw [hd] at hkept
      exact absurd (congrArg List.length hkept) (by simp)
    · exact hb

/-- Witness for claim C3: a message with one gap [5, 20) below
recv_end = 30, receiving the in-gap segment (10, 5). -/
theorem claim_C3_witness :
    gapsWF 0 (30 : Int) [{ start := 5, end_ := 20 }] ∧ (0 : Int) < 5 ∧
    ((10 + 5 ≤ (100 : Int) → (10 : Int) < 30 →
       ((homa_add_packet (mk_c3_msgin) 10 5).packets
           = mk_c3_msgin.packets ++ [(10, 5)] ↔
        ∃ g ∈ mk_c3_msgin.gaps, g.start ≤ 10 ∧ 10 + 5 ≤ g.end_))) := by
  refine ⟨by decide, by decide, ?_⟩
  exact (claim_C3_add_packet mk_c3_msgin 10 5 (by decide) (by decide)).2.2.2.1

/-- Claim C5: once homa_add_packet has accepted a segment, immediately
re-presenting a duplicate with the same (offset, length) leaves
bytes_remaining unchanged -- a positive-length duplicate is discarded
outright, and a zero-length duplicate debits nothing. -/
theorem claim_C5_duplicate (m : homa_message_in) (off len : Int)
    (hwf : gapsWF 0 m.recv_end m.gaps) (hlen : 0 ≤ len)
    (hkept : (homa_add_packet m off len).packets = m.packets ++ [(off, len)]) :
    (homa_add_packet (homa_add_packet m off len) off len).bytes_remaining
      = (homa_add_packet m off len).bytes_remaining := by
  rcases eq_or_lt_of_le hlen with hz | hpos
  · -- zero-length segment: bytes_remaining can only change by len = 0
    rcases homa_add_packet_cases (homa_add_packet m off len) off len
      with hd | ⟨_, hb, _⟩
    · rw [hd]
    · rw [hb]
      omega
  · by_cases hov : off + len > m.length
    · rw [homa_add_packet_over m off len hov] at hkept
      exact absurd (congrArg List.length hkept) (by simp)
    · by_cases hseq : off = m.recv_end
      · rw [homa_add_packet_seq m off len hov hseq]
        apply congrArg
        apply homa_add_packet_walk_none
        · exact hov
        · show ¬ off = m.recv_end + len
          omega
        · show ¬ off > m.recv_end + len
          omega
        · -- the range is already received: no gap of m can contain it
          rcases hw : homa_add_packet_gaps off (off + len) m.gaps with _ | gs
          · rfl
          · obtain ⟨g, hg, hc1, hc2⟩ := homa_add_packet_gaps_some_contains hw
            have := (gapsWF_bounds hwf g hg).2
            omega
      · by_cases hng : off > m.recv_end
        · rw [homa_add_packet_newgap m off len hov hseq hng]
          apply congrArg
          apply homa_add_packet_walk_none
          · exact hov
          · show ¬ off = off + len
            omega
          · show ¬ off > off + len
            omega
          · rcases hw : homa_add_packet_gaps off (off + len)
                (m.gaps ++ [{ start := m.recv_end, end_ := off }]) with _ | gs
            · exact hw
            · obtain ⟨g, hg, hc1, hc2⟩ := homa_add_packet_gaps_some_contains hw
              rcases List.mem_append.mp hg with hg' | hg'
              · have := (gapsWF_bounds hwf g hg').2
                omega
              · rcases List.mem_singleton.mp hg' with rfl
                simp only at hc1 hc2
                omega
        · rcases hw : homa_add_packet_gaps off (off + len) m.gaps with _ | gs
          · rw [homa_add_packet_walk_none m off len hov hseq hng hw] at hkept
            exact absurd (congrArg List.length hkept) (by simp)
          · rw [homa_add_packet_walk_some m off len hov hseq hng hw]
            apply congrArg
            apply homa_add_packet_walk_none
            · exact hov
            · exact hseq
            · exact hng
            · rcases hw2 : homa_add_packet_gaps off (off + len) gs with _ | gs2
              · rfl
              · obtain ⟨g, hg, hc1, hc2⟩ :=
                  homa_add_packet_gaps_some_contains hw2
                exact absurd ⟨hc1, hc2⟩
                  (homa_add_packet_gaps_result_free hwf (by omega) hw g hg)

/-- Witness for claim C5: the in-gap segment (10, 5) accepted into the
one-gap message, then presented again. -/
theorem claim_C5_witness :
    gapsWF 0 mk_c3_msgin.recv_end mk_c3_msgin.gaps ∧ (0 : Int) ≤ 5 ∧
    (homa_add_packet mk_c3_msgin 10 5).packets
      = mk_c3_msgin.packets ++ [(10, 5)] ∧
    (homa_add_packet (homa_add_packet mk_c3_msgin 10 5) 10 5).bytes_remaining
      = (homa_add_packet mk_c3_msgin 10 5).bytes_remaining := by
  refine ⟨by decide, by decide, by decide, ?_⟩
  exact claim_C5_duplicate mk_c3_msgin 10 5 (by decide) (by decide) (by decide)

end HomaModule
